import Mathlib

/-!
Verification development for the gastown repository.

Strings are modelled as `List Char`.  The helpers `listStartsWith`, `goIndex`,
`goSplitN2`, `trimSpace` and `trimRightNewline` model the Go standard-library
functions `strings.HasPrefix`-style prefix tests, `strings.Index`,
`strings.SplitN(s, sep, 2)`, `strings.TrimSpace` and
`strings.TrimRight(s, "\n")` used by `internal/cmd/queue_metadata.go`.

The shutdown-dance / dog-pool engine (claims about `Dance`, `DogPool`,
`Submit`, `Recover`) has no Go implementation in the repository sources; it
exists only as the design document `docs/design/dog-infrastructure.md` and the
specification.  Those components are therefore modelled from the spec, as
marked on each definition.
-/

/-- Tests whether `pat` is a prefix of `s`, by character comparison.  Models the
prefix test performed at each scan position by Go's `strings.Index`. -/
def listStartsWith : List Char → List Char → Bool
  | [], _ => true
  | _ :: _, [] => false
  | c :: cs, d :: ds => c = d && listStartsWith cs ds

/-- Models Go's `strings.Index(s, sub)`: the index of the first occurrence of
`sub` in `s`, or `none` where Go returns `-1`.  The needle `sub` is the first
argument so that the recursion is structural on the haystack. -/
def goIndex (sub : List Char) : List Char → Option Nat
  | [] => if listStartsWith sub [] then some 0 else none
  | c :: t => if listStartsWith sub (c :: t) then some 0 else (goIndex sub t).map (· + 1)

/-- Models Go's `strings.SplitN(s, sep, 2)`: `some (before, after)` when `sep`
occurs in `s` (split at the first occurrence), `none` when it does not (where
Go returns the one-element slice `[s]`). -/
def goSplitN2 (sep s : List Char) : Option (List Char × List Char) :=
  match goIndex sep s with
  | none => none
  | some i => some (s.take i, s.drop (i + sep.length))

/-- Whitespace predicate used by Go's `strings.TrimSpace` (`unicode.IsSpace`),
restricted to the Latin-1 space runes; space runes above U+00FF are not
modelled (none of the verified inputs contain them). -/
def isGoSpace (c : Char) : Bool :=
  c = ' ' || c = '\t' || c = '\n' || c = '\x0B' || c = '\x0C' || c = '\r' ||
    c = '\u0085' || c = '\u00A0'

/-- Models Go's `strings.TrimSpace`: removes leading and trailing whitespace. -/
def trimSpace (s : List Char) : List Char :=
  ((s.dropWhile isGoSpace).reverse.dropWhile isGoSpace).reverse

/-- Models Go's `strings.TrimRight(s, "\n")`: removes trailing newlines. -/
def trimRightNewline (s : List Char) : List Char :=
  (s.reverse.dropWhile (fun c => c = '\n')).reverse

/-- QueueMetadata holds queue dispatch parameters stored in a bead's
description (`internal/cmd/queue_metadata.go`).  Go string fields become
`List Char`; an empty list is Go's empty string (the "unset" value). -/
structure QueueMetadata where
  TargetRig : List Char
  Formula : List Char
  Args : List Char
  Vars : List Char
  EnqueuedAt : List Char
  Merge : List Char
  Convoy : List Char
  BaseBranch : List Char
deriving DecidableEq

/-- The `---queue---` delimiter from `queue_metadata.go`. -/
def queueMetadataDelimiter : List Char := "---queue---".toList

/-- The two-character separator `": "` used by `strings.SplitN(line, ": ", 2)`. -/
def colonSpace : List Char := ':' :: [' ']

/-- The zero-value `QueueMetadata{}` (all fields empty). -/
def emptyQueueMetadata : QueueMetadata := ⟨[], [], [], [], [], [], [], []⟩

/-- One `key: value` line as produced by `fmt.Sprintf("%s: %s", key, v)`
in `FormatQueueMetadata`. -/
def kvLine (key v : List Char) : List Char := key ++ ':' :: ' ' :: v

/-- The conditional `if m.Field != "" { lines = append(lines, ...) }` pattern
of `FormatQueueMetadata`: zero or one formatted line. -/
def optLine (key v : List Char) : List (List Char) :=
  if v = [] then [] else [kvLine key v]

/-- The lines appended for the eight fields of `FormatQueueMetadata`, in the
order the Go source appends them. -/
def metadataLines (m : QueueMetadata) : List (List Char) :=
  optLine "target_rig".toList m.TargetRig ++
    optLine "formula".toList m.Formula ++
    optLine "args".toList m.Args ++
    optLine "vars".toList m.Vars ++
    optLine "enqueued_at".toList m.EnqueuedAt ++
    optLine "merge".toList m.Merge ++
    optLine "convoy".toList m.Convoy ++
    optLine "base_branch".toList m.BaseBranch

/-- FormatQueueMetadata formats metadata as key-value lines for a bead
description: the delimiter line followed by one line per non-empty field,
joined with `"\n"` (Go's `strings.Join(lines, "\n")`). -/
def FormatQueueMetadata (m : QueueMetadata) : List Char :=
  List.intercalate ['\n'] (queueMetadataDelimiter :: metadataLines m)

/-- The `switch key` assignment in `ParseQueueMetadata`: sets the field named
by `key` to `v`, leaving the metadata unchanged for unknown keys. -/
def applyKV (m : QueueMetadata) (key v : List Char) : QueueMetadata :=
  if key = "target_rig".toList then { m with TargetRig := v }
  else if key = "formula".toList then { m with Formula := v }
  else if key = "args".toList then { m with Args := v }
  else if key = "vars".toList then { m with Vars := v }
  else if key = "enqueued_at".toList then { m with EnqueuedAt := v }
  else if key = "merge".toList then { m with Merge := v }
  else if key = "convoy".toList then { m with Convoy := v }
  else if key = "base_branch".toList then { m with BaseBranch := v }
  else m

/-- The line-processing loop of `ParseQueueMetadata`: trim each line, skip
blanks, stop at a second delimiter, skip lines without `": "`, otherwise
assign the trimmed key/value pair. -/
def processLines : List (List Char) → QueueMetadata → QueueMetadata
  | [], m => m
  | l :: ls, m =>
    let line := trimSpace l
    if line = [] then processLines ls m
    else if line = queueMetadataDelimiter then m
    else
      match goSplitN2 colonSpace line with
      | none => processLines ls m
      | some (k, v) => processLines ls (applyKV m (trimSpace k) (trimSpace v))

/-- ParseQueueMetadata extracts queue metadata from a bead description.
Returns `none` (Go `nil`) if no `---queue---` section is found; otherwise
processes the lines of the text after the delimiter (Go's
`strings.Split(section, "\n")`). -/
def ParseQueueMetadata (description : List Char) : Option QueueMetadata :=
  match goIndex queueMetadataDelimiter description with
  | none => none
  | some i =>
    some (processLines
      (List.splitOn '\n' (description.drop (i + queueMetadataDelimiter.length)))
      emptyQueueMetadata)

/-- StripQueueMetadata removes the `---queue---` section from a bead
description: the text before the delimiter with trailing newlines trimmed,
or the description unchanged when there is no delimiter. -/
def StripQueueMetadata (description : List Char) : List Char :=
  match goIndex queueMetadataDelimiter description with
  | none => description
  | some i => trimRightNewline (description.take i)

/-- QueueState represents the runtime operational state of the work queue
(`internal/cmd/mq_submit.go` part).  Go's zero-valued struct is
`⟨false, [], [], [], 0⟩`. -/
structure QueueState where
  Paused : Bool
  PausedBy : List Char
  PausedAt : List Char
  LastDispatchAt : List Char
  LastDispatchCount : Int
deriving DecidableEq

/-- Outcome of `os.ReadFile` as seen by `LoadQueueState`: file contents, a
not-exist error (`os.IsNotExist`), or any other read error. -/
inductive ReadFileResult where
  | ok (data : List Char)
  | errNotExist
  | errOther
deriving DecidableEq

/-- The error cases `LoadQueueState` can return. -/
inductive QueueStateLoadError where
  | readFailure
  | malformedJSON
deriving DecidableEq

/-- LoadQueueState loads the queue runtime state, returning a zero-value state
if the file does not exist; any other read error is returned as-is, and a
`json.Unmarshal` failure (modelled by the abstract decoder `unmarshal`
returning `none`) is returned as an error with no state. -/
def LoadQueueState (unmarshal : List Char → Option QueueState) :
    ReadFileResult → Except QueueStateLoadError QueueState
  | .errNotExist => .ok ⟨false, [], [], [], 0⟩
  | .errOther => .error .readFailure
  | .ok data =>
    match unmarshal data with
    | none => .error .malformedJSON
    | some s => .ok s

/-- Modelled from the spec: the shutdown-dance states of §4.2 (the repository
has no Go implementation of the dance engine; only the design document
`docs/design/dog-infrastructure.md` declares `ShutdownDanceState`). -/
inductive DanceState where
  | Idle
  | Interrogating
  | Evaluating
  | Pardoned
  | Executing
  | Complete
  | Failed
deriving DecidableEq

/-- Modelled from the spec: the literal liveness keyword `ALIVE` (§4.2,
design note "literal substring containment"). -/
def aliveKeyword : List Char := "ALIVE".toList

/-- Modelled from the spec: the check that a probe output contains the literal
token `ALIVE`, as substring containment. -/
def containsALIVE (out : List Char) : Bool := (goIndex aliveKeyword out).isSome

/-- Modelled from the spec: the per-attempt timeout schedule of §4.2
(attempt 1 waits 60s, attempt 2 waits 120s, attempt 3 waits 240s). -/
def attemptTimeout : Nat → Nat
  | 1 => 60
  | 2 => 120
  | 3 => 240
  | _ => 0

/-- Modelled from the spec: the environment a Dance runs against.  `peek a` is
the probe's visible output when polled on attempt `a` (`none` models the
probe being unreachable, the unrecoverable error of §4.2).  `sessionExists`
is the recovery-time probe answer to "does the target session still exist"
used by `Recover()` for Dances found in `Executing` (§4.3). -/
structure DanceEnv where
  peek : Nat → Option (List Char)
  sessionExists : Bool

/-- A snapshot persisted by the Dance after a transition: the state entered,
the attempt counter, and the number of warrant-cancel and session-terminate
side effects already performed when the snapshot was written. -/
structure DanceSnapshot where
  state : DanceState
  attempt : Nat
  cancelsDone : Nat
  terminatesDone : Nat
deriving DecidableEq

/-- The observable outcome of running (or resuming) a Dance: final state, the
states entered in order, the armed per-attempt timeouts, the number of
terminate and cancel side effects, and the snapshots persisted in order. -/
structure RunResult where
  final : DanceState
  path : List DanceState
  waits : List Nat
  terminates : Nat
  cancels : Nat
  persists : List DanceSnapshot
deriving DecidableEq

/-- Modelled from the spec: one interrogate/evaluate cycle of `Dance.Run`
(§4.2), recursing over the remaining attempts.  `left + 1` attempts remain
and the current attempt number is `a`.  Each transition is persisted; the
probe being unreachable aborts to `Failed` without consuming an attempt;
`ALIVE` in the output pardons (cancel warrant, then persist `Complete`);
after the final attempt without `ALIVE` the dance executes (terminate the
target session, then persist `Complete`). -/
def runFrom (env : DanceEnv) : Nat → Nat → RunResult
  | 0, a =>
    { final := .Failed, path := [.Failed], waits := [], terminates := 0,
      cancels := 0, persists := [⟨.Failed, a, 0, 0⟩] }
  | left + 1, a =>
    match env.peek a with
    | none =>
      { final := .Failed, path := [.Interrogating, .Failed], waits := [],
        terminates := 0, cancels := 0,
        persists := [⟨.Interrogating, a, 0, 0⟩, ⟨.Failed, a, 0, 0⟩] }
    | some out =>
      if containsALIVE out then
        { final := .Complete,
          path := [.Interrogating, .Evaluating, .Pardoned, .Complete],
          waits := [attemptTimeout a], terminates := 0, cancels := 1,
          persists := [⟨.Interrogating, a, 0, 0⟩, ⟨.Evaluating, a, 0, 0⟩,
            ⟨.Pardoned, a, 0, 0⟩, ⟨.Complete, a, 1, 0⟩] }
      else if left = 0 then
        { final := .Complete,
          path := [.Interrogating, .Evaluating, .Executing, .Complete],
          waits := [attemptTimeout a], terminates := 1, cancels := 0,
          persists := [⟨.Interrogating, a, 0, 0⟩, ⟨.Evaluating, a, 0, 0⟩,
            ⟨.Executing, a, 0, 0⟩, ⟨.Complete, a, 0, 1⟩] }
      else
        let r := runFrom env left (a + 1)
        { final := r.final,
          path := .Interrogating :: .Evaluating :: r.path,
          waits := attemptTimeout a :: r.waits,
          terminates := r.terminates, cancels := r.cancels,
          persists := ⟨.Interrogating, a, 0, 0⟩ :: ⟨.Evaluating, a, 0, 0⟩ ::
            r.persists }

/-- Modelled from the spec: `Dance.Run` on a Dance in `Idle` state — the full
three-attempt dance starting at attempt 1 (§4.2). -/
def runDance (env : DanceEnv) : RunResult := runFrom env 3 1

/-- Modelled from the spec: `Recover()` resumption of a single persisted Dance
record (§4.3).  `Pardoned`/`Complete` are already resolved (moved to the
completed partition, not re-run, no side effects); `Interrogating`/
`Evaluating` resume at the last known attempt with a fresh probe send;
`Executing` re-verifies via the probe whether the target session still
exists before marking `Complete`, terminating only when it still does;
`Idle` runs from the start; `Failed` is terminal. -/
def resumeDance (env : DanceEnv) (s : DanceState) (a : Nat) : RunResult :=
  match s with
  | .Pardoned =>
    { final := .Complete, path := [.Complete], waits := [], terminates := 0,
      cancels := 0, persists := [⟨.Complete, a, 0, 0⟩] }
  | .Complete =>
    { final := .Complete, path := [], waits := [], terminates := 0,
      cancels := 0, persists := [] }
  | .Interrogating => runFrom env (4 - a) a
  | .Evaluating => runFrom env (4 - a) a
  | .Executing =>
    if env.sessionExists then
      { final := .Complete, path := [.Executing, .Complete], waits := [],
        terminates := 1, cancels := 0, persists := [⟨.Complete, a, 0, 1⟩] }
    else
      { final := .Complete, path := [.Executing, .Complete], waits := [],
        terminates := 0, cancels := 0, persists := [⟨.Complete, a, 0, 0⟩] }
  | .Idle => runDance env
  | .Failed =>
    { final := .Failed, path := [], waits := [], terminates := 0,
      cancels := 0, persists := [] }

/-- Modelled from the spec: a `Warrant` record (§3); Go string fields become
`List Char`, the `FiledAt` timestamp becomes a `Nat`. -/
structure Warrant where
  ID : List Char
  Target : List Char
  Reason : List Char
  Requester : List Char
  FiledAt : Nat
deriving DecidableEq

/-- Modelled from the spec: a warrant is malformed when its `Target` or `ID`
is empty (§4.3 `InvalidWarrant`). -/
def validWarrant (w : Warrant) : Bool :=
  decide (w.ID ≠ []) && decide (w.Target ≠ [])

/-- Modelled from the spec: the pool bookkeeping state of §3/§4.3 — fixed
capacity, the `Active` map (dance ID to warrant, as an association list),
the FIFO `Pending` queue, the completed partition of the store, and a fresh
dance-ID counter. -/
structure PoolState where
  capacity : Nat
  active : List (Nat × Warrant)
  pending : List Warrant
  completed : List (Nat × Warrant)
  nextId : Nat
deriving DecidableEq

/-- Modelled from the spec: a freshly constructed `DogPool` of capacity `c`
(empty `Active`, empty `Pending`, empty completed partition). -/
def initPool (c : Nat) : PoolState :=
  { capacity := c, active := [], pending := [], completed := [], nextId := 0 }

/-- Modelled from the spec: the result `Submit` reports to the caller (§4.3):
a new Dance started with the given ID; the warrant queued because the pool
is exhausted (`PoolExhausted`, non-fatal — the call still succeeds); or the
warrant rejected (`InvalidWarrant`). -/
inductive SubmitOutcome where
  | started (danceId : Nat)
  | queuedPoolExhausted
  | rejectedInvalidWarrant
deriving DecidableEq

/-- Modelled from the spec: `DogPool.Submit` (§4.3, §7).  A malformed warrant
is rejected synchronously and never enters the pool; with `Active` at
capacity the warrant is appended to `Pending` (the call still succeeds);
otherwise a new Dance is allocated, added to `Active`, and started. -/
def submit (p : PoolState) (w : Warrant) : PoolState × SubmitOutcome :=
  if ¬ validWarrant w then
    (p, .rejectedInvalidWarrant)
  else if p.active.length = p.capacity then
    ({ p with pending := p.pending ++ [w] }, .queuedPoolExhausted)
  else
    ({ p with active := p.active ++ [(p.nextId, w)], nextId := p.nextId + 1 },
      .started p.nextId)

/-- Modelled from the spec: `onDanceComplete` (§4.3) — when a Dance's `Run`
returns, remove it from `Active`, move its record to the completed
partition, and, if `Pending` is non-empty, pop the oldest queued warrant
and immediately allocate and start a new Dance for it.  Invoked only for a
dance actually in `Active`; a stray ID is a no-op. -/
def onDanceComplete (p : PoolState) (id : Nat) : PoolState :=
  match p.active.find? (fun e => e.1 = id) with
  | none => p
  | some e =>
    let active' := p.active.eraseP (fun e => e.1 = id)
    let completed' := p.completed ++ [e]
    match p.pending with
    | [] => { p with active := active', completed := completed' }
    | w :: rest =>
      { p with
        active := active' ++ [(p.nextId, w)]
        pending := rest
        completed := completed'
        nextId := p.nextId + 1 }

/-- Modelled from the spec: the events the pool reacts to — a `Submit` call or
a Dance completion callback. -/
inductive PoolEvent where
  | submitEvent (w : Warrant)
  | completeEvent (id : Nat)
deriving DecidableEq

/-- Modelled from the spec: one pool step. -/
def poolStep (p : PoolState) : PoolEvent → PoolState
  | .submitEvent w => (submit p w).1
  | .completeEvent id => onDanceComplete p id

/-- Modelled from the spec: the pool state reached from a freshly constructed
pool of capacity `c` after a sequence of events. -/
def runPool (c : Nat) (events : List PoolEvent) : PoolState :=
  events.foldl poolStep (initPool c)

/-- All warrants currently tracked by the pool: embedded in an `Active` Dance,
waiting in `Pending`, or terminally recorded in the completed partition. -/
def allWarrants (p : PoolState) : List Warrant :=
  p.active.map (·.2) ++ p.pending ++ p.completed.map (·.2)

/-- Outcome shorthand: the dance aborts to `Failed` at attempt `a` because the
probe is unreachable (no timer armed, no side effects). -/
def failTail (a : Nat) : RunResult :=
  { final := .Failed, path := [.Interrogating, .Failed], waits := [],
    terminates := 0, cancels := 0,
    persists := [⟨.Interrogating, a, 0, 0⟩, ⟨.Failed, a, 0, 0⟩] }

/-- Outcome shorthand: the dance pardons at attempt `a` (cancel warrant, one
armed timeout, no termination). -/
def pardonTail (a : Nat) : RunResult :=
  { final := .Complete,
    path := [.Interrogating, .Evaluating, .Pardoned, .Complete],
    waits := [attemptTimeout a], terminates := 0, cancels := 1,
    persists := [⟨.Interrogating, a, 0, 0⟩, ⟨.Evaluating, a, 0, 0⟩,
      ⟨.Pardoned, a, 0, 0⟩, ⟨.Complete, a, 1, 0⟩] }

/-- Outcome shorthand: the dance executes at attempt `a` (terminate the target
session exactly once). -/
def execTail (a : Nat) : RunResult :=
  { final := .Complete,
    path := [.Interrogating, .Evaluating, .Executing, .Complete],
    waits := [attemptTimeout a], terminates := 1, cancels := 0,
    persists := [⟨.Interrogating, a, 0, 0⟩, ⟨.Evaluating, a, 0, 0⟩,
      ⟨.Executing, a, 0, 0⟩, ⟨.Complete, a, 0, 1⟩] }

/-- Outcome shorthand: one unresolved interrogate/evaluate cycle at attempt
`a` prepended to the rest of the run. -/
def consAttempt (a : Nat) (r : RunResult) : RunResult :=
  { final := r.final, path := .Interrogating :: .Evaluating :: r.path,
    waits := attemptTimeout a :: r.waits, terminates := r.terminates,
    cancels := r.cancels,
    persists := ⟨.Interrogating, a, 0, 0⟩ :: ⟨.Evaluating, a, 0, 0⟩ :: r.persists }

/-- Concrete environment: the probe answers `ALIVE` on every attempt. -/
def envAllAlive : DanceEnv := ⟨fun _ => some "ALIVE".toList, true⟩

/-- Concrete environment: the probe answers, but never with `ALIVE`. -/
def envNeverAlive : DanceEnv := ⟨fun _ => some "no reply seen".toList, true⟩

/-- Concrete environment: the probe is unreachable on every attempt. -/
def envUnreachable : DanceEnv := ⟨fun _ => none, true⟩

/-- Concrete metadata whose `TargetRig` value carries a leading space: a
non-empty, single-line, delimiter-free value on which the format/parse
round trip fails (the parser trims the value). -/
def leadingSpaceMeta : QueueMetadata :=
  { emptyQueueMetadata with TargetRig := ' ' :: ['x'] }

/-- Concrete well-formed metadata for evaluating the round trip. -/
def sampleMeta : QueueMetadata :=
  { emptyQueueMetadata with
    TargetRig := "gastown".toList
    Formula := "mol-polecat-work".toList
    EnqueuedAt := "2026-02-03T04:05:06Z".toList }

/-- A value is round-trip safe when it is either unset (empty) or a non-empty
single-line string, free of the `---queue---` delimiter, with no leading or
trailing whitespace (its `TrimSpace` is itself). -/
def roundTripSafe (v : List Char) : Prop :=
  v = [] ∨ (v ≠ [] ∧ '\n' ∉ v ∧ goIndex queueMetadataDelimiter v = none ∧ trimSpace v = v)

instance (v : List Char) : Decidable (roundTripSafe v) := by
  unfold roundTripSafe
  infer_instance

/-- The eight field values of a `QueueMetadata`, in the order
`FormatQueueMetadata` emits them. -/
def metadataFields (m : QueueMetadata) : List (List Char) :=
  [m.TargetRig, m.Formula, m.Args, m.Vars, m.EnqueuedAt, m.Merge, m.Convoy, m.BaseBranch]

/-- Concatenation of lines each preceded by a newline separator; `sepJoin ls`
is what follows the first line when `a :: ls` is joined with `"\n"`. -/
def sepJoin : List (List Char) → List Char
  | [] => []
  | l :: ls => '\n' :: (l ++ sepJoin ls)

/-- Concrete valid warrants and a malformed one (empty `ID`) for witnesses. -/
def warrantA : Warrant := ⟨"gt-aaa".toList, "gt-gastown-Toast".toList, [], [], 0⟩

/-- Second concrete valid warrant. -/
def warrantB : Warrant := ⟨"gt-bbb".toList, "gt-gastown-Furiosa".toList, [], [], 1⟩

/-- Malformed warrant: empty `ID`. -/
def warrantBadId : Warrant := ⟨[], "gt-gastown-Nux".toList, [], [], 2⟩

theorem listStartsWith_iff : ∀ (sub s : List Char), listStartsWith sub s = true ↔ sub <+: s
  | [], s => by simp [listStartsWith, List.nil_prefix]
  | c :: cs, [] => by simp [listStartsWith]
  | c :: cs, d :: ds => by
    simp [listStartsWith, listStartsWith_iff cs ds, List.cons_prefix_cons]

theorem goIndex_eq_none_iff (sub : List Char) :
    ∀ s, goIndex sub s = none ↔ ¬ sub <:+: s := by
  intro s
  induction s with
  | nil =>
    constructor
    · intro h hinf
      have : sub = [] := by simpa using hinf.sublist
      subst this
      simp [goIndex, listStartsWith] at h
    · intro h
      simp only [goIndex]
      split
      · exact absurd ((listStartsWith_iff sub []).mp (by assumption)).isInfix h
      · rfl
  | cons c t ih =>
    simp only [goIndex]
    split
    · rename_i hsw
      constructor
      · intro h; exact absurd h (by simp)
      · intro h
        exact absurd ((listStartsWith_iff sub (c :: t)).mp hsw).isInfix h
    · rename_i hsw
      rw [List.infix_cons_iff]
      constructor
      · intro h hbad
        rcases hbad with hpre | hinf
        · exact hsw ((listStartsWith_iff sub (c :: t)).mpr hpre)
        · exact (ih.mp (by simpa using h)) hinf
      · intro h
        have : goIndex sub t = none := ih.mpr fun hinf => h (Or.inr hinf)
        simp [this]

theorem goIndex_self_append (sub rest : List Char) : goIndex sub (sub ++ rest) = some 0 := by
  have hsw : listStartsWith sub (sub ++ rest) = true :=
    (listStartsWith_iff _ _).mpr (List.prefix_append _ _)
  cases h : sub ++ rest with
  | nil => rw [h] at hsw; simp [goIndex, hsw]
  | cons c t => rw [h] at hsw; simp [goIndex, hsw]

/-- C10: with a missing queue-state file, `LoadQueueState` returns the
zero-value state (`Paused` false, all other fields empty) and no error; any
other read failure, or contents the JSON decoder rejects, yields an error
and no state. -/
theorem c10_loadQueueState_spec :
    (∀ u, LoadQueueState u .errNotExist = .ok ⟨false, [], [], [], 0⟩) ∧
    (∀ u, LoadQueueState u .errOther = .error .readFailure) ∧
    (∀ u d, u d = none → LoadQueueState u (.ok d) = .error .malformedJSON) := by
  refine ⟨fun u => rfl, fun u => rfl, fun u d h => ?_⟩
  simp [LoadQueueState, h]

/-- Witness for C10 at a concrete decoder and input. -/
theorem c10_loadQueueState_spec_witness :
    LoadQueueState (fun _ => none) (.ok "not json".toList) = .error .malformedJSON :=
  c10_loadQueueState_spec.2.2 (fun _ => none) "not json".toList rfl

theorem dropWhile_eq_self_of_append (p : Char → Bool) (l r : List Char)
    (hl : l.dropWhile p = l) (hne : l ≠ []) : (l ++ r).dropWhile p = l ++ r := by
  cases l with
  | nil => exact absurd rfl hne
  | cons c t =>
    rw [List.cons_append, List.dropWhile_cons]
    rw [List.dropWhile_cons] at hl
    split
    · rename_i hp
      rw [if_pos hp] at hl
      exact absurd hl (by
        intro he
        have := congrArg List.length he
        have hlen : (t.dropWhile p).length ≤ t.length := (List.dropWhile_suffix p).sublist.length_le
        simp at this
        omega)
    · rfl

theorem trimSpace_split (v : List Char) (h : trimSpace v = v) :
    v.dropWhile isGoSpace = v ∧ v.reverse.dropWhile isGoSpace = v.reverse := by
  have h1 : (v.dropWhile isGoSpace).length ≤ v.length :=
    (List.dropWhile_suffix isGoSpace).sublist.length_le
  have h2 : (((v.dropWhile isGoSpace).reverse.dropWhile isGoSpace)).length ≤
      (v.dropWhile isGoSpace).length := by
    have := (List.dropWhile_suffix (l := (v.dropWhile isGoSpace).reverse) isGoSpace).sublist.length_le
    simpa using this
  have hlen : (trimSpace v).length = v.length := by rw [h]
  have hlen2 : (trimSpace v).length =
      ((v.dropWhile isGoSpace).reverse.dropWhile isGoSpace).length := by
    simp [trimSpace]
  have hfront : v.dropWhile isGoSpace = v :=
    (List.dropWhile_suffix isGoSpace).sublist.eq_of_length (by omega)
  refine ⟨hfront, ?_⟩
  have : (v.reverse.dropWhile isGoSpace).length = v.reverse.length := by
    rw [hfront] at hlen2 h2
    simp at hlen2 ⊢
    omega
  exact (List.dropWhile_suffix isGoSpace).sublist.eq_of_length this

theorem trimSpace_keyLine (key v : List Char) (hkey : key ≠ [])
    (hkhead : ∀ c, key.head? = some c → isGoSpace c = false)
    (hktrim : trimSpace key = key)
    (hv : trimSpace v = v) (hvne : v ≠ []) :
    trimSpace (key ++ ':' :: ' ' :: v) = key ++ ':' :: ' ' :: v := by
  obtain ⟨hvf, hvb⟩ := trimSpace_split v hv
  have hfront : (key ++ ':' :: ' ' :: v).dropWhile isGoSpace = key ++ ':' :: ' ' :: v := by
    apply dropWhile_eq_self_of_append _ _ _ _ hkey
    cases key with
    | nil => exact absurd rfl hkey
    | cons c t =>
      rw [List.dropWhile_cons, if_neg]
      simp [hkhead c rfl]
  have hback : (key ++ ':' :: ' ' :: v).reverse.dropWhile isGoSpace =
      (key ++ ':' :: ' ' :: v).reverse := by
    have hrev : (key ++ ':' :: ' ' :: v).reverse = v.reverse ++ (' ' :: ':' :: key.reverse) := by
      simp
    rw [hrev]
    apply dropWhile_eq_self_of_append _ _ _ hvb
    simpa using hvne
  unfold trimSpace
  rw [hfront, hback, List.reverse_reverse]

theorem goIndex_colonSpace_keyLine (v : List Char) :
    ∀ key : List Char, (∀ c ∈ key, c ≠ ':') →
      goIndex colonSpace (key ++ ':' :: ' ' :: v) = some key.length := by
  intro key
  induction key with
  | nil =>
    intro _
    simp [goIndex, colonSpace, listStartsWith]
  | cons c cs ih =>
    intro hk
    have hne : ¬ (listStartsWith colonSpace (c :: (cs ++ ':' :: ' ' :: v)) = true) := by
      simp [colonSpace, listStartsWith]
      intro h
      exact absurd h.symm (hk c (List.mem_cons_self c cs))
    rw [List.cons_append]
    simp only [goIndex]
    rw [if_neg hne, ih (fun d hd => hk d (List.mem_cons_of_mem c hd))]
    simp

theorem goSplitN2_keyLine (key v : List Char) (hk : ∀ c ∈ key, c ≠ ':') :
    goSplitN2 colonSpace (key ++ ':' :: ' ' :: v) = some (key, v) := by
  rw [goSplitN2, goIndex_colonSpace_keyLine v key hk]
  have h1 : (key ++ ':' :: ' ' :: v).take key.length = key := by
    simp [List.take_left]
  have h2 : (key ++ ':' :: ' ' :: v).drop (key.length + colonSpace.length) = v := by
    have : key ++ ':' :: ' ' :: v = (key ++ [':', ' ']) ++ v := by simp
    rw [this]
    have hl : (key ++ [':', ' ']).length = key.length + colonSpace.length := by
      simp [colonSpace]
    rw [← hl, List.drop_left]
  simp [h1, h2]

theorem intercalate_newline_cons (a : List Char) :
    ∀ ls : List (List Char), List.intercalate ['\n'] (a :: ls) = a ++ sepJoin ls := by
  intro ls
  induction ls generalizing a with
  | nil => simp [List.intercalate, sepJoin]
  | cons b ls ih =>
    have hb := ih (a := b)
    simp only [List.intercalate] at hb ⊢
    rw [List.intersperse_cons_cons, List.flatten_cons, List.flatten_cons, hb, sepJoin]
    simp

theorem splitOn_sepJoin (ls : List (List Char)) (h : ∀ l ∈ ls, '\n' ∉ l) :
    List.splitOn '\n' (sepJoin ls) = [] :: ls := by
  have : sepJoin ls = List.intercalate ['\n'] ([] :: ls) := by
    rw [intercalate_newline_cons]
    simp
  rw [this]
  exact List.splitOn_intercalate ([] :: ls) '\n' (by simpa using h) (by simp)

theorem mem_optLine {l key v : List Char} (h : l ∈ optLine key v) :
    l = kvLine key v ∧ v ≠ [] := by
  rw [optLine] at h
  split at h
  · simp at h
  · rename_i hv
    simp at h
    exact ⟨h, hv⟩

theorem processLines_optLine (key v : List Char) (rest : List (List Char)) (m : QueueMetadata)
    (hkey : key ≠ [])
    (hkhead : ∀ c, key.head? = some c → (isGoSpace c = false ∧ c ≠ '-'))
    (hkcolon : ∀ c ∈ key, c ≠ ':')
    (hktrim : trimSpace key = key)
    (hv : roundTripSafe v) :
    processLines (optLine key v ++ rest) m =
      processLines rest (if v = [] then m else applyKV m key v) := by
  rcases hv with hve | ⟨hvne, hnl, hdel, hvtrim⟩
  · subst hve
    simp [optLine]
  · rw [if_neg hvne, optLine, if_neg hvne]
    have hline : trimSpace (kvLine key v) = kvLine key v :=
      trimSpace_keyLine key v hkey (fun c hc => (hkhead c hc).1) hktrim hvtrim hvne
    obtain ⟨c, cs, hkc⟩ : ∃ c cs, key = c :: cs := by
      cases key with
      | nil => exact absurd rfl hkey
      | cons c cs => exact ⟨c, cs, rfl⟩
    have hne1 : ¬ (kvLine key v = []) := by
      subst hkc
      simp [kvLine]
    have hne2 : ¬ (kvLine key v = queueMetadataDelimiter) := by
      subst hkc
      intro heq
      have hh := congrArg List.head? heq
      simp [kvLine, queueMetadataDelimiter] at hh
      exact absurd hh ((hkhead c rfl).2)
    have hsplit : goSplitN2 colonSpace (kvLine key v) = some (key, v) :=
      goSplitN2_keyLine key v hkcolon
    simp only [List.cons_append, processLines, hline, hne1, hne2, if_false, hsplit,
      hktrim, hvtrim]
    simp [hne1, hne2]

theorem setIfTargetRig (v : List Char) (m : QueueMetadata) (h : m.TargetRig = []) :
    (if v = [] then m else applyKV m "target_rig".toList v) = applyKV m "target_rig".toList v := by
  split
  · rename_i hv
    subst hv
    obtain ⟨a1, a2, a3, a4, a5, a6, a7, a8⟩ := m
    simp only at h
    subst h
    rfl
  · rfl

theorem setIfFormula (v : List Char) (m : QueueMetadata) (h : m.Formula = []) :
    (if v = [] then m else applyKV m "formula".toList v) = applyKV m "formula".toList v := by
  split
  · rename_i hv
    subst hv
    obtain ⟨a1, a2, a3, a4, a5, a6, a7, a8⟩ := m
    simp only at h
    subst h
    rfl
  · rfl

theorem setIfArgs (v : List Char) (m : QueueMetadata) (h : m.Args = []) :
    (if v = [] then m else applyKV m "args".toList v) = applyKV m "args".toList v := by
  split
  · rename_i hv
    subst hv
    obtain ⟨a1, a2, a3, a4, a5, a6, a7, a8⟩ := m
    simp only at h
    subst h
    rfl
  · rfl

theorem setIfVars (v : List Char) (m : QueueMetadata) (h : m.Vars = []) :
    (if v = [] then m else applyKV m "vars".toList v) = applyKV m "vars".toList v := by
  split
  · rename_i hv
    subst hv
    obtain ⟨a1, a2, a3, a4, a5, a6, a7, a8⟩ := m
    simp only at h
    subst h
    rfl
  · rfl

theorem setIfEnqueuedAt (v : List Char) (m : QueueMetadata) (h : m.EnqueuedAt = []) :
    (if v = [] then m else applyKV m "enqueued_at".toList v) = applyKV m "enqueued_at".toList v := by
  split
  · rename_i hv
    subst hv
    obtain ⟨a1, a2, a3, a4, a5, a6, a7, a8⟩ := m
    simp only at h
    subst h
    rfl
  · rfl

theorem setIfMerge (v : List Char) (m : QueueMetadata) (h : m.Merge = []) :
    (if v = [] then m else applyKV m "merge".toList v) = applyKV m "merge".toList v := by
  split
  · rename_i hv
    subst hv
    obtain ⟨a1, a2, a3, a4, a5, a6, a7, a8⟩ := m
    simp only at h
    subst h
    rfl
  · rfl

theorem setIfConvoy (v : List Char) (m : QueueMetadata) (h : m.Convoy = []) :
    (if v = [] then m else applyKV m "convoy".toList v) = applyKV m "convoy".toList v := by
  split
  · rename_i hv
    subst hv
    obtain ⟨a1, a2, a3, a4, a5, a6, a7, a8⟩ := m
    simp only at h
    subst h
    rfl
  · rfl

theorem setIfBaseBranch (v : List Char) (m : QueueMetadata) (h : m.BaseBranch = []) :
    (if v = [] then m else applyKV m "base_branch".toList v) = applyKV m "base_branch".toList v := by
  split
  · rename_i hv
    subst hv
    obtain ⟨a1, a2, a3, a4, a5, a6, a7, a8⟩ := m
    simp only at h
    subst h
    rfl
  · rfl

theorem processLines_metadataLines (m : QueueMetadata)
    (h : ∀ f ∈ metadataFields m, roundTripSafe f) :
    processLines (metadataLines m) emptyQueueMetadata = m := by
  obtain ⟨v1, v2, v3, v4, v5, v6, v7, v8⟩ := m
  have h1 : roundTripSafe v1 := h _ (by simp [metadataFields])
  have h2 : roundTripSafe v2 := h _ (by simp [metadataFields])
  have h3 : roundTripSafe v3 := h _ (by simp [metadataFields])
  have h4 : roundTripSafe v4 := h _ (by simp [metadataFields])
  have h5 : roundTripSafe v5 := h _ (by simp [metadataFields])
  have h6 : roundTripSafe v6 := h _ (by simp [metadataFields])
  have h7 : roundTripSafe v7 := h _ (by simp [metadataFields])
  have h8 : roundTripSafe v8 := h _ (by simp [metadataFields])
  rw [metadataLines]
  dsimp only
  simp only [List.append_assoc]
  rw [processLines_optLine _ _ _ _ (by decide) (by decide) (by decide) (by decide) h1]
  rw [processLines_optLine _ _ _ _ (by decide) (by decide) (by decide) (by decide) h2]
  rw [processLines_optLine _ _ _ _ (by decide) (by decide) (by decide) (by decide) h3]
  rw [processLines_optLine _ _ _ _ (by decide) (by decide) (by decide) (by decide) h4]
  rw [processLines_optLine _ _ _ _ (by decide) (by decide) (by decide) (by decide) h5]
  rw [processLines_optLine _ _ _ _ (by decide) (by decide) (by decide) (by decide) h6]
  rw [processLines_optLine _ _ _ _ (by decide) (by decide) (by decide) (by decide) h7]
  rw [show optLine "base_branch".toList v8 = optLine "base_branch".toList v8 ++ [] by simp]
  rw [processLines_optLine _ _ _ _ (by decide) (by decide) (by decide) (by decide) h8]
  rw [setIfTargetRig v1 emptyQueueMetadata rfl]
  rw [setIfFormula v2 _ rfl]
  rw [setIfArgs v3 _ rfl]
  rw [setIfVars v4 _ rfl]
  rw [setIfEnqueuedAt v5 _ rfl]
  rw [setIfMerge v6 _ rfl]
  rw [setIfConvoy v7 _ rfl]
  rw [setIfBaseBranch v8 _ rfl]
  rfl

theorem newline_not_mem_kvLine (key v : List Char) (hkey : '\n' ∉ key) (hv : '\n' ∉ v) :
    '\n' ∉ kvLine key v := by
  simp [kvLine, hkey, hv]

theorem newline_not_mem_metadataLines (m : QueueMetadata)
    (h : ∀ f ∈ metadataFields m, roundTripSafe f) :
    ∀ l ∈ metadataLines m, '\n' ∉ l := by
  obtain ⟨v1, v2, v3, v4, v5, v6, v7, v8⟩ := m
  have h1 : roundTripSafe v1 := h _ (by simp [metadataFields])
  have h2 : roundTripSafe v2 := h _ (by simp [metadataFields])
  have h3 : roundTripSafe v3 := h _ (by simp [metadataFields])
  have h4 : roundTripSafe v4 := h _ (by simp [metadataFields])
  have h5 : roundTripSafe v5 := h _ (by simp [metadataFields])
  have h6 : roundTripSafe v6 := h _ (by simp [metadataFields])
  have h7 : roundTripSafe v7 := h _ (by simp [metadataFields])
  have h8 : roundTripSafe v8 := h _ (by simp [metadataFields])
  intro l hl
  simp only [metadataLines, List.mem_append] at hl
  rcases hl with ((((((hl | hl) | hl) | hl) | hl) | hl) | hl) | hl <;>
    obtain ⟨heq, hne⟩ := mem_optLine hl <;> subst heq <;>
    apply newline_not_mem_kvLine _ _ (by decide)
  · rcases h1 with he | ⟨-, hn, -, -⟩; · exact absurd he hne
    exact hn
  · rcases h2 with he | ⟨-, hn, -, -⟩; · exact absurd he hne
    exact hn
  · rcases h3 with he | ⟨-, hn, -, -⟩; · exact absurd he hne
    exact hn
  · rcases h4 with he | ⟨-, hn, -, -⟩; · exact absurd he hne
    exact hn
  · rcases h5 with he | ⟨-, hn, -, -⟩; · exact absurd he hne
    exact hn
  · rcases h6 with he | ⟨-, hn, -, -⟩; · exact absurd he hne
    exact hn
  · rcases h7 with he | ⟨-, hn, -, -⟩; · exact absurd he hne
    exact hn
  · rcases h8 with he | ⟨-, hn, -, -⟩; · exact absurd he hne
    exact hn

theorem parse_format_eq (m : QueueMetadata)
    (h : ∀ f ∈ metadataFields m, roundTripSafe f) :
    ParseQueueMetadata (FormatQueueMetadata m) = some m := by
  have hform : FormatQueueMetadata m = queueMetadataDelimiter ++ sepJoin (metadataLines m) := by
    rw [FormatQueueMetadata, intercalate_newline_cons]
  have hgi : goIndex queueMetadataDelimiter (FormatQueueMetadata m) = some 0 := by
    rw [hform]
    exact goIndex_self_append _ _
  simp only [ParseQueueMetadata, hgi]
  rw [hform]
  simp only [Nat.zero_add, List.drop_left]
  rw [splitOn_sepJoin _ (newline_not_mem_metadataLines m h)]
  have hstep : processLines ([] :: metadataLines m) emptyQueueMetadata
      = processLines (metadataLines m) emptyQueueMetadata := rfl
  rw [hstep, processLines_metadataLines m h]

/-- C9 (amended): for metadata whose set fields are non-empty single-line
values, free of the delimiter and of leading/trailing whitespace, parsing
the formatted description returns the metadata unchanged; parsing returns
`none` exactly when the description contains no `---queue---` delimiter, and
in that case stripping returns the description unchanged. -/
theorem c9_queue_metadata_roundtrip :
    (∀ m : QueueMetadata, (∀ f ∈ metadataFields m, roundTripSafe f) →
      ParseQueueMetadata (FormatQueueMetadata m) = some m) ∧
    (∀ d : List Char, ParseQueueMetadata d = none ↔ ¬ queueMetadataDelimiter <:+: d) ∧
    (∀ d : List Char, ¬ queueMetadataDelimiter <:+: d → StripQueueMetadata d = d) := by
  refine ⟨parse_format_eq, fun d => ?_, fun d hd => ?_⟩
  · rcases hgi : goIndex queueMetadataDelimiter d with - | i
    · have hni := (goIndex_eq_none_iff queueMetadataDelimiter d).mp hgi
      simp [ParseQueueMetadata, hgi, hni]
    · have hinf : queueMetadataDelimiter <:+: d := by
        by_contra hno
        rw [← goIndex_eq_none_iff queueMetadataDelimiter d] at hno
        rw [hgi] at hno
        exact Option.noConfusion hno
      simp [ParseQueueMetadata, hgi, hinf]
  · have hgi := (goIndex_eq_none_iff queueMetadataDelimiter d).mpr hd
    simp [StripQueueMetadata, hgi]

/-- Counterexample to C9 as stated: `leadingSpaceMeta` has a single non-empty,
single-line, delimiter-free field value `" x"`, yet the round trip returns
`"x"` (the parser trims values), not the original metadata. -/
theorem c9_roundtrip_counterexample :
    ParseQueueMetadata (FormatQueueMetadata leadingSpaceMeta) ≠ some leadingSpaceMeta := by
  decide

/-- Witness for C9 at a concrete metadata value. -/
theorem c9_queue_metadata_roundtrip_witness :
    ParseQueueMetadata (FormatQueueMetadata sampleMeta) = some sampleMeta :=
  c9_queue_metadata_roundtrip.1 sampleMeta (by decide)

theorem runDance_total (env : DanceEnv) :
    (env.peek 1 = none ∧ runDance env = failTail 1) ∨
    (∃ o, env.peek 1 = some o ∧ containsALIVE o = true ∧ runDance env = pardonTail 1) ∨
    (∃ o, env.peek 1 = some o ∧ containsALIVE o = false ∧
      ((env.peek 2 = none ∧ runDance env = consAttempt 1 (failTail 2)) ∨
       (∃ o2, env.peek 2 = some o2 ∧ containsALIVE o2 = true ∧
         runDance env = consAttempt 1 (pardonTail 2)) ∨
       (∃ o2, env.peek 2 = some o2 ∧ containsALIVE o2 = false ∧
         ((env.peek 3 = none ∧ runDance env = consAttempt 1 (consAttempt 2 (failTail 3))) ∨
          (∃ o3, env.peek 3 = some o3 ∧ containsALIVE o3 = true ∧
            runDance env = consAttempt 1 (consAttempt 2 (pardonTail 3))) ∨
          (∃ o3, env.peek 3 = some o3 ∧ containsALIVE o3 = false ∧
            runDance env = consAttempt 1 (consAttempt 2 (execTail 3))))))) := by
  rcases h1 : env.peek 1 with - | o1
  · exact Or.inl ⟨rfl, by simp [runDance, runFrom, h1, failTail]⟩
  · rcases hc1 : containsALIVE o1 with - | -
    · refine Or.inr (Or.inr ⟨o1, rfl, hc1, ?_⟩)
      rcases h2 : env.peek 2 with - | o2
      · refine Or.inl ⟨rfl, ?_⟩
        simp [runDance, runFrom, h1, h2, hc1, failTail, consAttempt]
      · rcases hc2 : containsALIVE o2 with - | -
        · refine Or.inr (Or.inr ⟨o2, rfl, hc2, ?_⟩)
          rcases h3 : env.peek 3 with - | o3
          · refine Or.inl ⟨rfl, ?_⟩
            simp [runDance, runFrom, h1, h2, h3, hc1, hc2, failTail, consAttempt]
          · rcases hc3 : containsALIVE o3 with - | -
            · refine Or.inr (Or.inr ⟨o3, rfl, hc3, ?_⟩)
              simp [runDance, runFrom, h1, h2, h3, hc1, hc2, hc3, execTail, consAttempt]
            · refine Or.inr (Or.inl ⟨o3, rfl, hc3, ?_⟩)
              simp [runDance, runFrom, h1, h2, h3, hc1, hc2, hc3, pardonTail, consAttempt]
        · refine Or.inr (Or.inl ⟨o2, rfl, hc2, ?_⟩)
          simp [runDance, runFrom, h1, h2, hc1, hc2, pardonTail, consAttempt]
    · refine Or.inr (Or.inl ⟨o1, rfl, hc1, ?_⟩)
      simp [runDance, runFrom, h1, hc1, pardonTail]

theorem runFrom_complete (env : DanceEnv)
    (hreach : ∀ b, 1 ≤ b → b ≤ 3 → (env.peek b).isSome = true) :
    ∀ left a, left + a = 4 → 1 ≤ a → 1 ≤ left →
      (runFrom env left a).final = .Complete ∧
      (runFrom env left a).cancels + (runFrom env left a).terminates = 1 := by
  intro left
  induction left with
  | zero => intro a _ _ hl; omega
  | succ l ih =>
    intro a h4 ha _
    have ha3 : a ≤ 3 := by omega
    obtain ⟨o, ho⟩ := Option.isSome_iff_exists.mp (hreach a ha ha3)
    rcases hc : containsALIVE o with - | -
    · by_cases hl0 : l = 0
      · subst hl0
        simp [runFrom, ho, hc]
      · have hrec := ih (a + 1) (by omega) (by omega) (by omega)
        simpa [runFrom, ho, hc, hl0] using hrec
    · simp [runFrom, ho, hc]

/-- C1: when the probe is reachable and its output contains the literal token
`ALIVE` on some attempt 1–3, the Dance ends in `Complete` through the
`Pardoned` state and the target session is never terminated. -/
theorem c1_alive_pardons (env : DanceEnv)
    (hreach : ∀ b, 1 ≤ b → b ≤ 3 → (env.peek b).isSome = true)
    (halive : ∃ a, 1 ≤ a ∧ a ≤ 3 ∧
      ∃ out, env.peek a = some out ∧ containsALIVE out = true) :
    (runDance env).final = .Complete ∧ .Pardoned ∈ (runDance env).path ∧
      (runDance env).terminates = 0 := by
  obtain ⟨a, ha1, ha3, out, hout, hcout⟩ := halive
  rcases runDance_total env with ⟨h1, -⟩ |
    ⟨o1, h1, hc1, hr⟩ |
    ⟨o1, h1, hc1, ⟨h2, -⟩ | ⟨o2, h2, hc2, hr⟩ |
      ⟨o2, h2, hc2, ⟨h3, -⟩ | ⟨o3, h3, hc3, hr⟩ | ⟨o3, h3, hc3, hr⟩⟩⟩
  · have := hreach 1 (by omega) (by omega)
    rw [h1] at this
    simp at this
  · rw [hr]
    refine ⟨rfl, by simp [pardonTail], rfl⟩
  · have := hreach 2 (by omega) (by omega)
    rw [h2] at this
    simp at this
  · rw [hr]
    refine ⟨rfl, by simp [consAttempt, pardonTail], rfl⟩
  · have := hreach 3 (by omega) (by omega)
    rw [h3] at this
    simp at this
  · rw [hr]
    refine ⟨rfl, by simp [consAttempt, pardonTail], rfl⟩
  · exfalso
    interval_cases a
    · rw [hout] at h1
      cases h1
      rw [hcout] at hc1
      cases hc1
    · rw [hout] at h2
      cases h2
      rw [hcout] at hc2
      cases hc2
    · rw [hout] at h3
      cases h3
      rw [hcout] at hc3
      cases hc3

/-- Witness for C1: a probe that answers `ALIVE` on every attempt. -/
theorem c1_alive_pardons_witness :
    (runDance envAllAlive).final = .Complete ∧ .Pardoned ∈ (runDance envAllAlive).path ∧
      (runDance envAllAlive).terminates = 0 :=
  c1_alive_pardons envAllAlive (fun _ _ _ => rfl)
    ⟨1, by omega, by omega, "ALIVE".toList, rfl, by decide⟩

/-- C2: when the probe is reachable on all three attempts and never shows
`ALIVE`, the Dance ends in `Complete` through the `Executing` state and
`Terminate` is invoked exactly once (and the warrant is never cancelled). -/
theorem c2_no_alive_executes (env : DanceEnv)
    (hnone : ∀ a, 1 ≤ a → a ≤ 3 →
      ∃ out, env.peek a = some out ∧ containsALIVE out = false) :
    (runDance env).final = .Complete ∧ .Executing ∈ (runDance env).path ∧
      (runDance env).terminates = 1 ∧ (runDance env).cancels = 0 := by
  rcases runDance_total env with ⟨h1, -⟩ |
    ⟨o1, h1, hc1, hr⟩ |
    ⟨o1, h1, hc1, ⟨h2, -⟩ | ⟨o2, h2, hc2, hr⟩ |
      ⟨o2, h2, hc2, ⟨h3, -⟩ | ⟨o3, h3, hc3, hr⟩ | ⟨o3, h3, hc3, hr⟩⟩⟩
  · obtain ⟨out, hout, -⟩ := hnone 1 (by omega) (by omega)
    rw [hout] at h1
    cases h1
  · obtain ⟨out, hout, hco⟩ := hnone 1 (by omega) (by omega)
    rw [hout] at h1
    cases h1
    rw [hco] at hc1
    cases hc1
  · obtain ⟨out, hout, -⟩ := hnone 2 (by omega) (by omega)
    rw [hout] at h2
    cases h2
  · obtain ⟨out, hout, hco⟩ := hnone 2 (by omega) (by omega)
    rw [hout] at h2
    cases h2
    rw [hco] at hc2
    cases hc2
  · obtain ⟨out, hout, -⟩ := hnone 3 (by omega) (by omega)
    rw [hout] at h3
    cases h3
  · obtain ⟨out, hout, hco⟩ := hnone 3 (by omega) (by omega)
    rw [hout] at h3
    cases h3
    rw [hco] at hc3
    cases hc3
  · rw [hr]
    exact ⟨rfl, by simp [consAttempt, execTail], rfl, rfl⟩

/-- Witness for C2: a probe that answers without `ALIVE` on every attempt. -/
theorem c2_no_alive_executes_witness :
    (runDance envNeverAlive).final = .Complete ∧
      .Executing ∈ (runDance envNeverAlive).path ∧
      (runDance envNeverAlive).terminates = 1 ∧ (runDance envNeverAlive).cancels = 0 :=
  c2_no_alive_executes envNeverAlive
    (fun _ _ _ => ⟨"no reply seen".toList, rfl, by decide⟩)

/-- Counterexample to C4 as stated: with the probe unreachable the Dance
terminates in the terminal state `Failed` (a state the spec's own
transition graph reaches from any step), yet neither the warrant-cancel nor
the session-terminate side effect has occurred. -/
theorem c4_side_effects_counterexample :
    (runDance envUnreachable).final = .Failed ∧
      ¬ ((runDance envUnreachable).cancels + (runDance envUnreachable).terminates = 1) := by
  decide

/-- C4 (amended): a Dance run ending in `Complete` performs exactly one of
the two side effects — cancel warrant (pardon path) or terminate session
(execute path) — never both and never neither; a run ending in the terminal
state `Failed` (unrecoverable error) performs neither. -/
theorem c4_exactly_one_side_effect (env : DanceEnv) :
    ((runDance env).final = .Complete →
      ((runDance env).cancels = 1 ∧ (runDance env).terminates = 0) ∨
        ((runDance env).cancels = 0 ∧ (runDance env).terminates = 1)) ∧
    ((runDance env).final = .Failed →
      (runDance env).cancels = 0 ∧ (runDance env).terminates = 0) := by
  rcases runDance_total env with ⟨-, hr⟩ |
    ⟨o1, -, -, hr⟩ |
    ⟨o1, -, -, ⟨-, hr⟩ | ⟨o2, -, -, hr⟩ |
      ⟨o2, -, -, ⟨-, hr⟩ | ⟨o3, -, -, hr⟩ | ⟨o3, -, -, hr⟩⟩⟩ <;>
    rw [hr] <;>
    simp [failTail, pardonTail, execTail, consAttempt]

/-- Witness for C4 at a concrete environment (all attempts answer `ALIVE`). -/
theorem c4_exactly_one_side_effect_witness :
    ((runDance envAllAlive).cancels = 1 ∧ (runDance envAllAlive).terminates = 0) ∨
      ((runDance envAllAlive).cancels = 0 ∧ (runDance envAllAlive).terminates = 1) :=
  (c4_exactly_one_side_effect envAllAlive).1 (by decide)

/-- C6: every `Dance.Run` terminates, arming the exact timeout schedule
(60s, then 120s, then 240s — its `waits` list is a prefix of
`[60, 120, 240]`, cumulatively at most 420s), and on termination the last
persisted record carries the terminal state the run ended in. -/
theorem c6_run_terminates_bounded (env : DanceEnv) :
    ((runDance env).final = .Complete ∨ (runDance env).final = .Failed) ∧
    (runDance env).waits <+: [60, 120, 240] ∧
    (runDance env).waits.sum ≤ 420 ∧
    ((runDance env).persists.getLast?.map DanceSnapshot.state = some (runDance env).final) := by
  rcases runDance_total env with ⟨-, hr⟩ |
    ⟨o1, -, -, hr⟩ |
    ⟨o1, -, -, ⟨-, hr⟩ | ⟨o2, -, -, hr⟩ |
      ⟨o2, -, -, ⟨-, hr⟩ | ⟨o3, -, -, hr⟩ | ⟨o3, -, -, hr⟩⟩⟩ <;>
    rw [hr] <;>
    refine ⟨by decide, by decide, by decide, by decide⟩

theorem resume_midflight_complete (env : DanceEnv)
    (hreach : ∀ b, 1 ≤ b → b ≤ 3 → (env.peek b).isSome = true)
    (a : Nat) (ha1 : 1 ≤ a) (ha3 : a ≤ 3) (s : DanceState)
    (hs : s = .Interrogating ∨ s = .Evaluating) :
    (resumeDance env s a).final = .Complete ∧
      (resumeDance env s a).cancels + (resumeDance env s a).terminates = 1 := by
  have h := runFrom_complete env hreach (4 - a) a (by omega) ha1 (by omega)
  rcases hs with hs | hs <;> subst hs <;> exact h

/-- C7: for a reachable probe, resuming from any snapshot the uninterrupted
run persisted (with the recovery-time "session still exists" probe answer
consistent with whether `Terminate` had already run) reaches the same
terminal state as the uninterrupted run, with at most one warrant-cancel
and at most one session-terminate across the crash boundary; and a Dance
recovered in `Executing` whose probe shows the session already gone marks
`Complete` without re-invoking `Terminate`. -/
theorem c7_crash_recovery (env : DanceEnv)
    (hreach : ∀ b, 1 ≤ b → b ≤ 3 → (env.peek b).isSome = true) :
    (∀ snap ∈ (runDance env).persists,
      (resumeDance { env with sessionExists := decide (snap.terminatesDone = 0) }
          snap.state snap.attempt).final = (runDance env).final ∧
      snap.cancelsDone + (resumeDance { env with sessionExists := decide (snap.terminatesDone = 0) }
          snap.state snap.attempt).cancels ≤ 1 ∧
      snap.terminatesDone + (resumeDance { env with sessionExists := decide (snap.terminatesDone = 0) }
          snap.state snap.attempt).terminates ≤ 1) ∧
    (∀ env2 : DanceEnv, ∀ a : Nat, env2.sessionExists = false →
      (resumeDance env2 .Executing a).terminates = 0 ∧
      (resumeDance env2 .Executing a).final = .Complete) := by
  constructor
  · rcases runDance_total env with ⟨h1, -⟩ |
      ⟨o1, h1, hc1, hr⟩ |
      ⟨o1, h1, hc1, ⟨h2, -⟩ | ⟨o2, h2, hc2, hr⟩ |
        ⟨o2, h2, hc2, ⟨h3, -⟩ | ⟨o3, h3, hc3, hr⟩ | ⟨o3, h3, hc3, hr⟩⟩⟩
    · have := hreach 1 (by omega) (by omega)
      rw [h1] at this
      simp at this
    · rw [hr]
      intro snap hsnap
      fin_cases hsnap <;> dsimp only
      · have h := resume_midflight_complete
          { env with sessionExists := decide ((0:Nat) = 0) } hreach 1 (by omega) (by omega)
          .Interrogating (Or.inl rfl)
        exact ⟨h.1, by omega, by omega⟩
      · have h := resume_midflight_complete
          { env with sessionExists := decide ((0:Nat) = 0) } hreach 1 (by omega) (by omega)
          .Evaluating (Or.inr rfl)
        exact ⟨h.1, by omega, by omega⟩
      · exact ⟨rfl, by simp [resumeDance], by simp [resumeDance]⟩
      · exact ⟨rfl, by simp [resumeDance], by simp [resumeDance]⟩
    · have := hreach 2 (by omega) (by omega)
      rw [h2] at this
      simp at this
    · rw [hr]
      intro snap hsnap
      fin_cases hsnap <;> dsimp only
      · have h := resume_midflight_complete
          { env with sessionExists := decide ((0:Nat) = 0) } hreach 1 (by omega) (by omega)
          .Interrogating (Or.inl rfl)
        exact ⟨h.1, by omega, by omega⟩
      · have h := resume_midflight_complete
          { env with sessionExists := decide ((0:Nat) = 0) } hreach 1 (by omega) (by omega)
          .Evaluating (Or.inr rfl)
        exact ⟨h.1, by omega, by omega⟩
      · have h := resume_midflight_complete
          { env with sessionExists := decide ((0:Nat) = 0) } hreach 2 (by omega) (by omega)
          .Interrogating (Or.inl rfl)
        exact ⟨h.1, by omega, by omega⟩
      · have h := resume_midflight_complete
          { env with sessionExists := decide ((0:Nat) = 0) } hreach 2 (by omega) (by omega)
          .Evaluating (Or.inr rfl)
        exact ⟨h.1, by omega, by omega⟩
      · exact ⟨rfl, by simp [resumeDance], by simp [resumeDance]⟩
      · exact ⟨rfl, by simp [resumeDance], by simp [resumeDance]⟩
    · have := hreach 3 (by omega) (by omega)
      rw [h3] at this
      simp at this
    · rw [hr]
      intro snap hsnap
      fin_cases hsnap <;> dsimp only
      · have h := resume_midflight_complete
          { env with sessionExists := decide ((0:Nat) = 0) } hreach 1 (by omega) (by omega)
          .Interrogating (Or.inl rfl)
        exact ⟨h.1, by omega, by omega⟩
      · have h := resume_midflight_complete
          { env with sessionExists := decide ((0:Nat) = 0) } hreach 1 (by omega) (by omega)
          .Evaluating (Or.inr rfl)
        exact ⟨h.1, by omega, by omega⟩
      · have h := resume_midflight_complete
          { env with sessionExists := decide ((0:Nat) = 0) } hreach 2 (by omega) (by omega)
          .Interrogating (Or.inl rfl)
        exact ⟨h.1, by omega, by omega⟩
      · have h := resume_midflight_complete
          { env with sessionExists := decide ((0:Nat) = 0) } hreach 2 (by omega) (by omega)
          .Evaluating (Or.inr rfl)
        exact ⟨h.1, by omega, by omega⟩
      · have h := resume_midflight_complete
          { env with sessionExists := decide ((0:Nat) = 0) } hreach 3 (by omega) (by omega)
          .Interrogating (Or.inl rfl)
        exact ⟨h.1, by omega, by omega⟩
      · have h := resume_midflight_complete
          { env with sessionExists := decide ((0:Nat) = 0) } hreach 3 (by omega) (by omega)
          .Evaluating (Or.inr rfl)
        exact ⟨h.1, by omega, by omega⟩
      · exact ⟨rfl, by simp [resumeDance], by simp [resumeDance]⟩
      · exact ⟨rfl, by simp [resumeDance], by simp [resumeDance]⟩
    · rw [hr]
      intro snap hsnap
      fin_cases hsnap <;> dsimp only
      · have h := resume_midflight_complete
          { env with sessionExists := decide ((0:Nat) = 0) } hreach 1 (by omega) (by omega)
          .Interrogating (Or.inl rfl)
        exact ⟨h.1, by omega, by omega⟩
      · have h := resume_midflight_complete
          { env with sessionExists := decide ((0:Nat) = 0) } hreach 1 (by omega) (by omega)
          .Evaluating (Or.inr rfl)
        exact ⟨h.1, by omega, by omega⟩
      · have h := resume_midflight_complete
          { env with sessionExists := decide ((0:Nat) = 0) } hreach 2 (by omega) (by omega)
          .Interrogating (Or.inl rfl)
        exact ⟨h.1, by omega, by omega⟩
      · have h := resume_midflight_complete
          { env with sessionExists := decide ((0:Nat) = 0) } hreach 2 (by omega) (by omega)
          .Evaluating (Or.inr rfl)
        exact ⟨h.1, by omega, by omega⟩
      · have h := resume_midflight_complete
          { env with sessionExists := decide ((0:Nat) = 0) } hreach 3 (by omega) (by omega)
          .Interrogating (Or.inl rfl)
        exact ⟨h.1, by omega, by omega⟩
      · have h := resume_midflight_complete
          { env with sessionExists := decide ((0:Nat) = 0) } hreach 3 (by omega) (by omega)
          .Evaluating (Or.inr rfl)
        exact ⟨h.1, by omega, by omega⟩
      · exact ⟨rfl, by simp [resumeDance], by simp [resumeDance]⟩
      · exact ⟨rfl, by simp [resumeDance], by simp [resumeDance]⟩
  · intro env2 a h
    simp [resumeDance, h]

/-- Witness for C7: resuming the first persisted snapshot of an all-`ALIVE`
run reaches the same terminal state. -/
theorem c7_crash_recovery_witness :
    (resumeDance { envAllAlive with sessionExists := decide ((0:Nat) = 0) }
        .Interrogating 1).final = (runDance envAllAlive).final :=
  ((c7_crash_recovery envAllAlive (fun _ _ _ => rfl)).1
    ⟨.Interrogating, 1, 0, 0⟩ (by decide)).1

theorem poolStep_length (p : PoolState) (e : PoolEvent)
    (h : p.active.length ≤ p.capacity) :
    (poolStep p e).active.length ≤ p.capacity ∧ (poolStep p e).capacity = p.capacity := by
  cases e with
  | submitEvent w =>
    rw [poolStep, submit]
    split
    · exact ⟨h, rfl⟩
    · split
      · exact ⟨h, rfl⟩
      · rename_i hfull
        constructor
        · simp only [List.length_append, List.length_cons, List.length_nil]
          omega
        · rfl
  | completeEvent id =>
    rw [poolStep, onDanceComplete]
    rcases hf : p.active.find? (fun e => e.1 = id) with - | entry <;> rw [hf]
    · exact ⟨h, rfl⟩
    · have hmem := List.mem_of_find?_eq_some hf
      have hpe := List.find?_some hf
      obtain ⟨a, l1, l2, -, -, hl, he⟩ := @List.exists_of_eraseP _ (fun x => x.1 = id) _ _ hmem hpe
      rw [hl] at he
      have hlen : (p.active.eraseP (fun e => e.1 = id)).length = p.active.length - 1 := by
        rw [hl, he]
        simp
      have hpos : 1 ≤ p.active.length := List.length_pos.mpr (List.ne_nil_of_mem hmem)
      rcases hp : p.pending with - | ⟨w, rest⟩ <;> dsimp only <;> constructor
      · simp only [hlen]
        omega
      · rfl
      · simp only [List.length_append, List.length_cons, List.length_nil, hlen]
        omega
      · rfl

/-- C3: starting from a freshly constructed pool of capacity `c`, no sequence
of `Submit` calls and Dance completions ever makes the `Active` map exceed
the capacity. -/
theorem c3_active_bounded_by_capacity (c : Nat) (events : List PoolEvent) :
    (runPool c events).active.length ≤ c := by
  suffices h : ∀ (p : PoolState), p.active.length ≤ p.capacity →
      (events.foldl poolStep p).active.length ≤ p.capacity ∧
      (events.foldl poolStep p).capacity = p.capacity by
    have := h (initPool c) (by simp [initPool])
    simpa [runPool, initPool] using this.1
  induction events with
  | nil => intro p hp; exact ⟨hp, rfl⟩
  | cons e es ih =>
    intro p hp
    have hstep := poolStep_length p e hp
    have := ih (poolStep p e) (by rw [hstep.2]; exact hstep.1)
    rw [List.foldl_cons]
    exact ⟨by rw [← hstep.2]; exact this.1, by rw [this.2, hstep.2]⟩

/-- C5: `Submit` on a full pool reports `PoolExhausted` yet appends the (valid)
warrant to `Pending` and leaves `Active` unchanged (the call succeeds);
`Submit` of a malformed warrant (empty `Target` or `ID`) is rejected with
`InvalidWarrant` synchronously and the pool state — in particular `Active`
and `Pending` — is unchanged, so the warrant never appears in either. -/
theorem c5_submit_exhaustion_and_invalid :
    (∀ p w, validWarrant w = true → p.active.length = p.capacity →
      submit p w = ({ p with pending := p.pending ++ [w] }, .queuedPoolExhausted)) ∧
    (∀ p w, validWarrant w = false →
      submit p w = (p, .rejectedInvalidWarrant)) := by
  constructor
  · intro p w hv hfull
    rw [submit, if_neg (by simp [hv]), if_pos hfull]
  · intro p w hv
    rw [submit, if_pos (by simp [hv])]

/-- Witness for C5: a full pool of capacity 1 queues a valid warrant; a
malformed warrant is rejected with the pool unchanged. -/
theorem c5_submit_exhaustion_and_invalid_witness :
    submit (runPool 1 [.submitEvent warrantA]) warrantB =
      ({ runPool 1 [.submitEvent warrantA] with pending := [warrantB] },
        .queuedPoolExhausted) ∧
    submit (runPool 1 [.submitEvent warrantA]) warrantBadId =
      (runPool 1 [.submitEvent warrantA], .rejectedInvalidWarrant) := by
  constructor
  · exact c5_submit_exhaustion_and_invalid.1 _ warrantB (by decide) (by decide)
  · exact c5_submit_exhaustion_and_invalid.2 _ warrantBadId (by decide)

theorem poolStep_count_complete (w : Warrant) (p : PoolState) (id : Nat) :
    (allWarrants (poolStep p (.completeEvent id))).count w = (allWarrants p).count w := by
  rw [poolStep, onDanceComplete]
  split
  · rfl
  · rename_i entry hf
    have hmem := List.mem_of_find?_eq_some hf
    have hpe := List.find?_some hf
    obtain ⟨a, l1, l2, h1, hpa, hl, he⟩ :=
      @List.exists_of_eraseP _ (fun x => x.1 = id) _ _ hmem hpe
    rw [hl] at he hf
    rw [List.find?_append, List.find?_eq_none.mpr h1, Option.none_or,
      @List.find?_cons_of_pos _ (fun e => e.1 = id) a l2 hpa] at hf
    have hea : entry = a := (Option.some.inj hf).symm
    subst hea
    split
    · rename_i hp
      simp only [allWarrants, List.count_append, List.map_append, List.count_cons,
        List.map_cons, List.map_nil, List.count_nil, hp, he, hl]
      omega
    · rename_i w2 rest hp
      simp only [allWarrants, List.count_append, List.map_append, List.count_cons,
        List.map_cons, List.map_nil, List.count_nil, hp, he, hl]
      omega

theorem poolStep_count (w : Warrant) (p : PoolState) (e : PoolEvent) :
    (allWarrants (poolStep p e)).count w =
      (allWarrants p).count w +
        (if e = .submitEvent w ∧ validWarrant w = true then 1 else 0) := by
  cases e with
  | submitEvent w2 =>
    by_cases hw : w2 = w
    · subst hw
      rcases hv : validWarrant w2 with - | -
      · rw [if_neg (by simp [hv])]
        rw [poolStep, submit, if_pos (by simp [hv])]
        simp
      · rw [if_pos (by simp [hv])]
        rw [poolStep, submit, if_neg (by simp [hv])]
        split
        · simp only [allWarrants, List.count_append, List.count_cons, List.count_nil,
            List.count_singleton]
          simp
          omega
        · simp only [allWarrants, List.map_append, List.count_append, List.count_cons,
            List.count_nil, List.map_cons, List.map_nil, List.count_singleton]
          simp
          omega
    · rw [if_neg (fun hc => hw (PoolEvent.submitEvent.inj hc.1))]
      rw [poolStep, submit]
      split
      · rfl
      · split
        · simp only [allWarrants, List.count_append]
          have : [w2].count w = 0 := by simp [List.count_cons, hw]
          simp [this]
        · simp only [allWarrants, List.map_append, List.count_append, List.map_cons,
            List.map_nil]
          have : ([w2] : List Warrant).count w = 0 := by simp [List.count_cons, hw]
          simp [this]
  | completeEvent id =>
    rw [if_neg (by simp)]
    rw [Nat.add_zero]
    exact poolStep_count_complete w p id

theorem runPool_count (w : Warrant) :
    ∀ (events : List PoolEvent) (p : PoolState),
      (allWarrants (events.foldl poolStep p)).count w =
        (allWarrants p).count w +
          (if validWarrant w = true then events.count (.submitEvent w) else 0) := by
  intro events
  induction events with
  | nil => simp
  | cons e es ih =>
    intro p
    rw [List.foldl_cons, ih (poolStep p e), poolStep_count, List.count_cons]
    rcases hv : validWarrant w with - | -
    · simp [hv]
    · simp only [hv, and_true, if_true]
      have : ((e == PoolEvent.submitEvent w) = true) ↔ (e = PoolEvent.submitEvent w) := by
        simp
      rcases he : e == PoolEvent.submitEvent w with - | -
      · rw [if_neg (by intro hc; rw [this.mpr hc] at he; cases he)]
        simp
      · rw [if_pos (this.mp he)]
        simp
        omega

/-- C8: starting from a fresh pool, a valid warrant occurs across
`Active`/`Pending`/completed exactly as many times as it was submitted — in
particular a valid warrant submitted exactly once is in exactly one place,
never lost, never duplicated; a malformed warrant never occurs anywhere;
and a completion with a non-empty `Pending` queue assigns precisely the
oldest queued warrant to a fresh Dance (strict FIFO: the head is dequeued
and enters `Active`). -/
theorem c8_warrant_conservation :
    (∀ (c : Nat) (events : List PoolEvent) (w : Warrant), validWarrant w = true →
      (allWarrants (runPool c events)).count w = events.count (.submitEvent w)) ∧
    (∀ (c : Nat) (events : List PoolEvent) (w : Warrant), validWarrant w = true →
      events.count (.submitEvent w) = 1 →
      (allWarrants (runPool c events)).count w = 1) ∧
    (∀ (c : Nat) (events : List PoolEvent) (w : Warrant), validWarrant w = false →
      (allWarrants (runPool c events)).count w = 0) ∧
    (∀ (p : PoolState) (id : Nat) (w : Warrant) (rest : List Warrant),
      p.pending = w :: rest →
      (p.active.find? (fun x => x.1 = id)).isSome = true →
      (onDanceComplete p id).pending = rest ∧
        (p.nextId, w) ∈ (onDanceComplete p id).active) := by
  have hbase : ∀ c w, (allWarrants (initPool c)).count w = 0 := by
    intro c w
    simp [allWarrants, initPool]
  have hmain : ∀ (c : Nat) (events : List PoolEvent) (w : Warrant),
      (allWarrants (runPool c events)).count w =
        (if validWarrant w = true then events.count (.submitEvent w) else 0) := by
    intro c events w
    rw [runPool, runPool_count w events (initPool c), hbase]
    rw [Nat.zero_add]
  refine ⟨?_, ?_, ?_, ?_⟩
  · intro c events w hv
    rw [hmain, if_pos hv]
  · intro c events w hv h1
    rw [hmain, if_pos hv, h1]
  · intro c events w hv
    rw [hmain, if_neg (by simp [hv])]
  · intro p id w rest hp hf
    obtain ⟨entry, hentry⟩ := Option.isSome_iff_exists.mp hf
    rw [onDanceComplete]
    split
    · rename_i hnone
      rw [hnone] at hentry
      cases hentry
    · rename_i e hsome
      split
      · rename_i hpnil
        rw [hpnil] at hp
        cases hp
      · rename_i w2 rest2 hp2
        rw [hp2] at hp
        injection hp with hw hrest
        subst hw
        subst hrest
        exact ⟨rfl, by simp⟩

/-- Witness for C8 at concrete pool runs. -/
theorem c8_warrant_conservation_witness :
    (allWarrants (runPool 1 [.submitEvent warrantA, .submitEvent warrantB,
      .completeEvent 0])).count warrantB = 1 ∧
    (allWarrants (runPool 1 [.submitEvent warrantBadId])).count warrantBadId = 0 := by
  constructor
  · exact c8_warrant_conservation.2.1 1 _ warrantB (by decide) (by decide)
  · exact c8_warrant_conservation.2.2.1 1 _ warrantBadId (by decide)
